import Mathlib

/-!
Verification of the portfolio ledger and analytics engine of the
stock_dashboard repository, as a shallow embedding in Lean 4.

Conventions of the embedding:
- Python `Decimal` values are modelled as exact rationals (`ℚ`); the
  repository performs arbitrary-precision decimal arithmetic and the spec
  demands decimal precision, so `ℚ` is the idealisation of both.
- `datetime` values are modelled as a calendar day index paired with a
  time-of-day index; only ordering and the `.date()` projection matter
  to the code under verification.
- Python exceptions (`ValueError`) are modelled with `Except String`;
  stateful repository mutation is modelled by explicit state passing: each
  ledger operation returns its result (or error) together with the state
  holding exactly the mutations the source performed before returning or
  raising.
- Python dicts are modelled as association lists with unique keys, first
  match lookup, and insertion-order iteration.
- `str.upper()` is modelled as mapping `Char.toUpper` over the string's
  characters (ticker symbols are ASCII).
-/

/-- A `datetime`: calendar day index and time of day; `day` is the
`.date()` projection. -/
structure PyDateTime where
  day : Nat
  tod : Nat
deriving Repr, DecidableEq

/-- A position row, from `server/api/models/position.py` (`Position`).
The generated `position_id` is omitted: no verified code path reads it. -/
structure Position where
  symbol : String
  quantity : ℚ
  cost_basis : ℚ
  current_price : ℚ
  position_type : String
  sector : String
  industry : String
  beta : ℚ
  entry_date : PyDateTime
  last_updated : PyDateTime
deriving Repr, DecidableEq

/-- A transaction record, from `server/api/models/transaction.py`
(`Transaction`). The generated `transaction_id` is omitted: no verified
code path reads it. -/
structure Transaction where
  symbol : String
  transaction_type : String
  quantity : ℚ
  price : ℚ
  date : PyDateTime
  realized_gain : Option ℚ
deriving Repr, DecidableEq

/-- The quote collaborator's `get_stock_info` result fields the ledger
reads (`stock_service.get_stock_info` always supplies all four keys). -/
structure StockInfo where
  price : ℚ
  sector : String
  industry : String
  beta : ℚ
deriving Repr, DecidableEq

/-- The mutable aggregate: the position collection held by the portfolio
repository together with the transaction log held by the transaction
repository (`JSONRepository.add` appends). -/
structure PortfolioState where
  positions : List Position
  transactions : List Transaction
deriving Repr, DecidableEq

/-- `str.upper()` for ASCII ticker symbols: upper-case every character. -/
def str_upper (s : String) : String :=
  ⟨s.data.map Char.toUpper⟩

/-- `Position.VALID_POSITION_TYPES`. -/
def VALID_POSITION_TYPES : List String := ["long", "short"]

/-- `Transaction.VALID_TRANSACTION_TYPES`. -/
def VALID_TRANSACTION_TYPES : List String := ["buy", "sell", "short", "cover"]

/-- `Position.__init__` (position.py lines 46-77): validates inputs in
source order and stores the symbol upper-cased; `now` stands for the
`datetime.now()` written to `last_updated`. -/
def mkPosition (symbol : String) (quantity cost_basis current_price : ℚ)
    (position_type sector industry : String) (beta : ℚ)
    (entry_date now : PyDateTime) : Except String Position :=
  if symbol = "" then
    .error "Symbol must be a non-empty string"
  else if quantity ≤ 0 then
    .error "Quantity must be a positive decimal"
  else if cost_basis ≤ 0 then
    .error "Cost basis must be a positive decimal"
  else if current_price ≤ 0 then
    .error "Current price must be a positive decimal"
  else if position_type ∉ VALID_POSITION_TYPES then
    .error "Position type must be one of long, short"
  else if beta < -1 ∨ beta > 5 then
    .error "Beta must be a number between 0 and 5"
  else
    .ok { symbol := str_upper symbol, quantity, cost_basis, current_price,
          position_type, sector, industry, beta, entry_date,
          last_updated := now }

/-- `Transaction.__init__` (transaction.py lines 36-56): validates inputs
in source order and stores the symbol upper-cased. -/
def mkTransaction (symbol transaction_type : String) (quantity price : ℚ)
    (date : PyDateTime) (realized_gain : Option ℚ) : Except String Transaction :=
  if symbol = "" then
    .error "Symbol must be a non-empty string"
  else if transaction_type ∉ VALID_TRANSACTION_TYPES then
    .error "Transaction type must be one of buy, sell, short, cover"
  else if quantity ≤ 0 then
    .error "Quantity must be a positive decimal"
  else if price ≤ 0 then
    .error "Price must be a positive decimal"
  else
    .ok { symbol := str_upper symbol, transaction_type, quantity, price,
          date, realized_gain }

/-- `PortfolioRepository.get_position`: first position matching symbol and
type, else `None`. -/
def get_position : List Position → String → String → Option Position
  | [], _, _ => none
  | p :: ps, symbol, position_type =>
    if p.symbol == symbol && p.position_type == position_type then some p
    else get_position ps symbol position_type

/-- `PortfolioRepository.update_position`: replace the first position with
the same symbol and type; append when none matches. -/
def update_position : List Position → Position → List Position
  | [], pos => [pos]
  | p :: ps, pos =>
    if p.symbol == pos.symbol && p.position_type == pos.position_type then
      pos :: ps
    else
      p :: update_position ps pos

/-- `PortfolioRepository.close_position`: remove the first position with
the given symbol and type. -/
def close_position : List Position → String → String → List Position
  | [], _, _ => []
  | p :: ps, symbol, position_type =>
    if p.symbol == symbol && p.position_type == position_type then ps
    else p :: close_position ps symbol position_type

/-- `PortfolioService.execute_buy` (portfolio_service.py lines 25-84).
`info` is the quote collaborator's answer (a collaborator failure is fatal
before any mutation, so it is a parameter of the success path); `now`
stands for `datetime.now()`. The transaction is appended before the
position is located, exactly as in the source. -/
def execute_buy (s : PortfolioState) (symbol : String) (quantity price : ℚ)
    (date : PyDateTime) (info : StockInfo) (now : PyDateTime) :
    Except String (Position × Transaction) × PortfolioState :=
  match mkTransaction symbol "buy" quantity price date none with
  | .error e => (.error e, s)
  | .ok t =>
    let s1 : PortfolioState := { s with transactions := s.transactions ++ [t] }
    match get_position s1.positions symbol "long" with
    | some pos =>
      let new_quantity := pos.quantity + quantity
      let total_cost := pos.quantity * pos.cost_basis + quantity * price
      let new_cost_basis := total_cost / new_quantity
      let pos' := { pos with quantity := new_quantity,
                             cost_basis := new_cost_basis,
                             current_price := info.price,
                             last_updated := now }
      (.ok (pos', t), { s1 with positions := update_position s1.positions pos' })
    | none =>
      match mkPosition symbol quantity price info.price "long"
              info.sector info.industry info.beta date now with
      | .error e => (.error e, s1)
      | .ok pos =>
        (.ok (pos, t), { s1 with positions := s1.positions ++ [pos] })

/-- `PortfolioService.execute_sell` (portfolio_service.py lines 86-127):
the insufficient-shares check precedes every mutation; on success the
`sell` transaction carries the realized gain and the long position is
closed (full sell) or its quantity reduced with cost basis untouched. -/
def execute_sell (s : PortfolioState) (symbol : String) (quantity price : ℚ)
    (date : PyDateTime) :
    Except String (Option Position × Transaction) × PortfolioState :=
  match get_position s.positions symbol "long" with
  | none => (.error ("Insufficient shares to sell: " ++ symbol), s)
  | some pos =>
    if pos.quantity < quantity then
      (.error ("Insufficient shares to sell: " ++ symbol), s)
    else
      let realized_gain := (price - pos.cost_basis) * quantity
      match mkTransaction symbol "sell" quantity price date (some realized_gain) with
      | .error e => (.error e, s)
      | .ok t =>
        let s1 : PortfolioState := { s with transactions := s.transactions ++ [t] }
        if pos.quantity == quantity then
          (.ok (none, t),
           { s1 with positions := close_position s1.positions symbol "long" })
        else
          let pos' := { pos with quantity := pos.quantity - quantity }
          (.ok (some pos', t),
           { s1 with positions := update_position s1.positions pos' })

/-- `PortfolioService.execute_short` (portfolio_service.py lines 129-188):
symmetric to `execute_buy` for the short direction. -/
def execute_short (s : PortfolioState) (symbol : String) (quantity price : ℚ)
    (date : PyDateTime) (info : StockInfo) (now : PyDateTime) :
    Except String (Position × Transaction) × PortfolioState :=
  match mkTransaction symbol "short" quantity price date none with
  | .error e => (.error e, s)
  | .ok t =>
    let s1 : PortfolioState := { s with transactions := s.transactions ++ [t] }
    match get_position s1.positions symbol "short" with
    | some pos =>
      let new_quantity := pos.quantity + quantity
      let total_cost := pos.quantity * pos.cost_basis + quantity * price
      let new_cost_basis := total_cost / new_quantity
      let pos' := { pos with quantity := new_quantity,
                             cost_basis := new_cost_basis,
                             current_price := info.price,
                             last_updated := now }
      (.ok (pos', t), { s1 with positions := update_position s1.positions pos' })
    | none =>
      match mkPosition symbol quantity price info.price "short"
              info.sector info.industry info.beta date now with
      | .error e => (.error e, s1)
      | .ok pos =>
        (.ok (pos, t), { s1 with positions := s1.positions ++ [pos] })

/-- `PortfolioService.execute_cover` (portfolio_service.py lines 190-231):
symmetric to `execute_sell` for the short direction, with the realized
gain sign inverted: `(cost_basis - price) * quantity`. -/
def execute_cover (s : PortfolioState) (symbol : String) (quantity price : ℚ)
    (date : PyDateTime) :
    Except String (Option Position × Transaction) × PortfolioState :=
  match get_position s.positions symbol "short" with
  | none => (.error ("Insufficient shares to cover: " ++ symbol), s)
  | some pos =>
    if pos.quantity < quantity then
      (.error ("Insufficient shares to cover: " ++ symbol), s)
    else
      let realized_gain := (pos.cost_basis - price) * quantity
      match mkTransaction symbol "cover" quantity price date (some realized_gain) with
      | .error e => (.error e, s)
      | .ok t =>
        let s1 : PortfolioState := { s with transactions := s.transactions ++ [t] }
        if pos.quantity == quantity then
          (.ok (none, t),
           { s1 with positions := close_position s1.positions symbol "short" })
        else
          let pos' := { pos with quantity := pos.quantity - quantity }
          (.ok (some pos', t),
           { s1 with positions := update_position s1.positions pos' })

/-- Python dict lookup on an association list: first matching key. -/
def dict_get {β : Type} : List (String × β) → String → Option β
  | [], _ => none
  | (k, v) :: rest, key => if k == key then some v else dict_get rest key

/-- The price-refresh loop of `PortfolioService.update_portfolio`
(portfolio_service.py lines 245-248): each position whose symbol is in
the batch-quote result gets that price and a fresh `last_updated`; other
positions are untouched. -/
def update_portfolio_positions (positions : List Position)
    (quotes : List (String × ℚ)) (now : PyDateTime) : List Position :=
  positions.map (fun p =>
    match dict_get quotes p.symbol with
    | some price => { p with current_price := price, last_updated := now }
    | none => p)

/-- The `updated_count` computed by the `/update-prices` route
(routes/portfolio_bp.py lines 149-157): the number of positions whose
symbol is present in the batch-quote result. -/
def updated_count (positions : List Position) (quotes : List (String × ℚ)) : Nat :=
  (positions.filter (fun p => (dict_get quotes p.symbol).isSome)).length

/-- One record of the quote provider's raw batch answer: `symbol` is
`none` when the 'symbol' key is missing, `price` is `none` when the
'price' key is missing and `some none` when present but unparseable. -/
structure RawQuote where
  symbol : Option String
  price : Option (Option ℚ)
deriving Repr, DecidableEq

/-- Dict insertion `d[k] = v`: overwrite in place when the key exists,
append otherwise. -/
def dict_insert {β : Type} : List (String × β) → String → β → List (String × β)
  | [], key, v => [(key, v)]
  | (k, w) :: rest, key, v =>
    if k == key then (k, v) :: rest else (k, w) :: dict_insert rest key v

/-- The quote-collecting loop of `StockService.get_batch_quotes`
(stock_service.py lines 224-230): records with both a 'symbol' and a
'price' key are kept, an unparseable price falls back to 100.00. -/
def parse_quotes (raw : List RawQuote) : List (String × ℚ) :=
  raw.foldl (fun acc q =>
    match q.symbol, q.price with
    | some sym, some (some p) => dict_insert acc sym p
    | some sym, some none => dict_insert acc sym 100
    | _, _ => acc) []

/-- The mock-fill loop of `StockService.get_batch_quotes` (stock_service.py
lines 232-235): every requested symbol still missing gets 100.00. -/
def fill_missing (symbols : List String) (quotes : List (String × ℚ)) :
    List (String × ℚ) :=
  symbols.foldl (fun acc s =>
    if (dict_get acc s).isSome then acc else acc ++ [(s, 100)]) quotes

/-- `StockService.get_batch_quotes` (stock_service.py lines 208-241).
`data` is the provider's response: `none` models the request raising, in
which case every symbol gets the mock price 100.00; otherwise parsed
quotes are collected and every requested symbol still missing is filled
with 100.00. -/
def get_batch_quotes (symbols : List String) (data : Option (List RawQuote)) :
    List (String × ℚ) :=
  if symbols.isEmpty then []
  else
    match data with
    | none => symbols.map (fun s => (s, 100))
    | some raw => fill_missing symbols (parse_quotes raw)

/-- Nat-keyed dict lookup (daily P&L is keyed by calendar date). -/
def date_get : List (Nat × ℚ) → Nat → Option ℚ
  | [], _ => none
  | (k, v) :: rest, key => if k == key then some v else date_get rest key

/-- `daily_pnl[date] += gain`: update the (unique) entry for the key. -/
def date_add (m : List (Nat × ℚ)) (d : Nat) (g : ℚ) : List (Nat × ℚ) :=
  m.map (fun kv => if kv.1 == d then (kv.1, kv.2 + g) else kv)

/-- One iteration of `AnalyticsService._calculate_daily_pnl`'s loop
(analytics_service.py lines 118-123): the transaction's calendar date is
zero-initialised when absent, then the realized gain is added when it is
truthy (a non-`None`, non-zero `Decimal`). -/
def daily_pnl_step (m : List (Nat × ℚ)) (t : Transaction) : List (Nat × ℚ) :=
  let d := t.date.day
  let m1 := if (date_get m d).isSome then m else m ++ [(d, 0)]
  match t.realized_gain with
  | some g => if g ≠ 0 then date_add m1 d g else m1
  | none => m1

/-- `AnalyticsService._calculate_daily_pnl` (analytics_service.py lines
114-125): fold the loop over the transaction list starting from the empty
dict. -/
def calculate_daily_pnl (transactions : List Transaction) : List (Nat × ℚ) :=
  transactions.foldl daily_pnl_step []

/-- The signed `position_value` column set by
`Portfolio.update_portfolio_metadata` (models/portfolio.py lines 431-436):
quantity times current price, negated for shorts. -/
def position_value_signed (p : Position) : ℚ :=
  p.quantity * p.current_price * (if p.position_type == "short" then -1 else 1)

/-- The distinct sectors of a list of rows (the keys of pandas
`groupby('sector')`; pandas sorts the keys, which no verified property
depends on). -/
def sectors_of (rows : List Position) : List String :=
  (rows.map Position.sector).dedup

/-- The summed signed position value of one sector group. -/
def sector_sum (rows : List Position) (sec : String) : ℚ :=
  ((rows.filter (fun p => p.sector == sec)).map position_value_signed).sum

/-- `Portfolio.get_sector_exposure` for one direction (models/portfolio.py
lines 527-549): absolute per-sector value over the absolute direction
total, times 100; an empty map when the direction holds no value. -/
def get_sector_exposure (positions : List Position) (position_type : String) :
    List (String × ℚ) :=
  let rows := positions.filter (fun p => p.position_type == position_type)
  let total_value := |(rows.map position_value_signed).sum|
  if total_value > 0 then
    (sectors_of rows).map (fun sec => (sec, |sector_sum rows sec| / total_value * 100))
  else []

/-- A serialized JSON scalar for the long/short ratio field: a number or
a string token. -/
inductive RatioJson
  | num (q : ℚ)
  | str (s : String)
deriving Repr, DecidableEq

/-- Python `round(x, 2)`: round half to even at two decimal places. -/
def round_half_even (q : ℚ) : ℤ :=
  let f := ⌊q⌋
  let r := q - f
  if r < 1 / 2 then f
  else if 1 / 2 < r then f + 1
  else if f % 2 = 0 then f else f + 1

/-- Python `round(x, 2)` on a rational. -/
def python_round2 (q : ℚ) : ℚ :=
  (round_half_even (q * 100) : ℚ) / 100

/-- Modelled from the spec: the class-based Portfolio aggregate's
`update_metadata` is absent from src (only the DataFrame-based Portfolio
model and the repositories and routes that consume the metadata are
present). Per spec 4.6 and the default metadata written by
`PortfolioRepository._create_default_portfolio`, the stored
`long_short_ratio` is `total_long_value / total_short_value` when the
short value is positive, and the non-numeric `"N/A"` sentinel otherwise
(`none` here). -/
def long_short_ratio_value (total_long_value total_short_value : ℚ) : Option ℚ :=
  if total_short_value > 0 then some (total_long_value / total_short_value)
  else none

/-- The serialization of the metadata's long/short ratio performed by
`get_portfolio` (routes/portfolio.py lines 48-52): a numeric value is
rounded to 2 places, a non-numeric one renders as the literal "N/A". -/
def serialize_long_short : Option ℚ → RatioJson
  | some q => .num (python_round2 q)
  | none => .str "N/A"

/-! ## Concrete fixtures used by witnesses -/

/-- A fixed trade date. -/
def dt0 : PyDateTime := ⟨1, 0⟩

/-- A fixed clock reading for `datetime.now()`. -/
def dt1 : PyDateTime := ⟨1, 1⟩

/-- A fixed quote collaborator answer. -/
def info0 : StockInfo := ⟨155, "Technology", "Software", 1⟩

/-- A long position: 100 shares of AAPL at cost basis 150. -/
def posAAPL : Position :=
  ⟨"AAPL", 100, 150, 155, "long", "Technology", "Software", 1, dt0, dt0⟩

/-- A state holding only `posAAPL`. -/
def s0 : PortfolioState := ⟨[posAAPL], []⟩

/-- A short position: 500 shares of AAPL at cost basis 40. -/
def posShortAAPL : Position :=
  ⟨"AAPL", 500, 40, 38, "short", "Technology", "Software", 1, dt0, dt0⟩

/-- A state holding the 100-share AAPL long together with a 500-share
AAPL short. -/
def sMixed : PortfolioState := ⟨[posAAPL, posShortAAPL], []⟩

/-- A long position: 150 shares of AAPL at the averaged cost basis 470/3
(the spec's buy-100-at-150-then-50-at-170 example). -/
def posAAPL2 : Position :=
  ⟨"AAPL", 150, 470 / 3, 155, "long", "Technology", "Software", 1, dt0, dt0⟩

/-- A state holding only `posAAPL2`. -/
def s2 : PortfolioState := ⟨[posAAPL2], []⟩

/-- The quote collaborator answer used when shorting Y. -/
def infoY : StockInfo := ⟨38, "Energy", "Oil", 1⟩

/-- The state after shorting 30 shares of Y at 40 from an empty portfolio. -/
def sY : PortfolioState := (execute_short ⟨[], []⟩ "Y" 30 40 dt0 infoY dt1).2

/-- The short position that shorting 30 shares of Y at 40 creates. -/
def posY : Position := ⟨"Y", 30, 40, 38, "short", "Energy", "Oil", 1, dt0, dt1⟩

/-- A batch-quote result quoting only AAPL. -/
def quotesA : List (String × ℚ) := [("AAPL", 160)]

/-- The realized gains summed over one calendar date's transactions
(a `None` gain counts as 0). -/
def pnl_gains (d : Nat) (ts : List Transaction) : ℚ :=
  ((ts.filter (fun t => t.date.day == d)).map
    (fun t => t.realized_gain.getD 0)).sum

/-- A buy transaction (no realized gain) on calendar day 5. -/
def txBuy : Transaction := ⟨"AAPL", "buy", 1, 10, ⟨5, 0⟩, none⟩

/-- The position that constructing from lower-case "aapl" yields. -/
def posLower : Position :=
  ⟨str_upper "aapl", 1, 2, 3, "long", "Technology", "Software", 1, dt0, dt1⟩

/-- The transaction that constructing from lower-case "msft" yields. -/
def txLower : Transaction := ⟨str_upper "msft", "buy", 1, 2, dt0, none⟩

/-- A long Technology position worth 10. -/
def pTechA : Position := ⟨"A", 1, 1, 10, "long", "Technology", "X", 1, dt0, dt0⟩

/-- A long Energy position worth 30. -/
def pEnergyB : Position := ⟨"B", 2, 1, 15, "long", "Energy", "X", 1, dt0, dt0⟩

/-- A short Technology position worth 5. -/
def pShortC : Position := ⟨"C", 1, 1, 5, "short", "Technology", "X", 1, dt0, dt0⟩

/-! ## Helper lemmas -/

theorem mkTransaction_ok (symbol transaction_type : String) (q p : ℚ)
    (d : PyDateTime) (g : Option ℚ) (hs : symbol ≠ "")
    (ht : transaction_type ∈ VALID_TRANSACTION_TYPES) (hq : 0 < q) (hp : 0 < p) :
    mkTransaction symbol transaction_type q p d g =
      .ok ⟨str_upper symbol, transaction_type, q, p, d, g⟩ := by
  unfold mkTransaction
  rw [if_neg hs, if_neg (not_not_intro ht), if_neg (not_le.mpr hq),
    if_neg (not_le.mpr hp)]

theorem mkPosition_ok (symbol : String) (q cb cp : ℚ)
    (position_type sector industry : String) (beta : ℚ) (ed now : PyDateTime)
    (hs : symbol ≠ "") (hq : 0 < q) (hcb : 0 < cb) (hcp : 0 < cp)
    (hpt : position_type ∈ VALID_POSITION_TYPES)
    (hb1 : -1 ≤ beta) (hb2 : beta ≤ 5) :
    mkPosition symbol q cb cp position_type sector industry beta ed now =
      .ok ⟨str_upper symbol, q, cb, cp, position_type, sector, industry, beta, ed, now⟩ := by
  unfold mkPosition
  rw [if_neg hs, if_neg (not_le.mpr hq), if_neg (not_le.mpr hcb),
    if_neg (not_le.mpr hcp), if_neg (not_not_intro hpt),
    if_neg (by push_neg; exact ⟨hb1, hb2⟩)]

theorem get_position_matches {ps : List Position} {sym pt : String} {pos : Position}
    (h : get_position ps sym pt = some pos) :
    pos.symbol = sym ∧ pos.position_type = pt := by
  induction ps with
  | nil => simp [get_position] at h
  | cons p ps ih =>
    unfold get_position at h
    by_cases hc : (p.symbol == sym && p.position_type == pt) = true
    · rw [if_pos hc] at h
      have hp : p = pos := by injection h
      subst hp
      simpa [Bool.and_eq_true, beq_iff_eq] using hc
    · rw [if_neg hc] at h
      exact ih h

theorem get_position_update_position {ps : List Position} {sym pt : String}
    {pos : Position} (pos' : Position)
    (h : get_position ps sym pt = some pos)
    (hs : pos'.symbol = pos.symbol) (hp : pos'.position_type = pos.position_type) :
    get_position (update_position ps pos') sym pt = some pos' := by
  obtain ⟨hps, hpp⟩ := get_position_matches h
  induction ps with
  | nil => simp [get_position] at h
  | cons p ps ih =>
    unfold get_position at h
    by_cases hc : (p.symbol == sym && p.position_type == pt) = true
    · rw [if_pos hc] at h
      have hppos : p = pos := by injection h
      subst hppos
      unfold update_position
      rw [if_pos (by simp [hs, hp])]
      unfold get_position
      rw [if_pos (by simp [hs, hp, hps, hpp])]
    · rw [if_neg hc] at h
      have hmiss : ¬ ((p.symbol == pos'.symbol && p.position_type == pos'.position_type) = true) := by
        rw [hs, hps, hp, hpp]
        exact hc
      unfold update_position
      rw [if_neg hmiss]
      unfold get_position
      rw [if_neg hc]
      exact ih h

theorem get_position_none_of_no_match {ps : List Position} {sym pt : String}
    (h : ∀ p ∈ ps, ¬ ((p.symbol == sym && p.position_type == pt) = true)) :
    get_position ps sym pt = none := by
  induction ps with
  | nil => rfl
  | cons p ps ih =>
    unfold get_position
    rw [if_neg (h p (List.mem_cons_self p ps))]
    exact ih (fun x hx => h x (List.mem_cons_of_mem p hx))

theorem get_position_close_position {ps : List Position} {sym pt : String}
    (hc : (ps.filter (fun p => p.symbol == sym && p.position_type == pt)).length ≤ 1) :
    get_position (close_position ps sym pt) sym pt = none := by
  induction ps with
  | nil => rfl
  | cons p ps ih =>
    by_cases hm : (p.symbol == sym && p.position_type == pt) = true
    · unfold close_position
      rw [if_pos hm]
      rw [@List.filter_cons_of_pos Position
        (fun x => x.symbol == sym && x.position_type == pt) p ps hm] at hc
      rw [List.length_cons] at hc
      have hnil := List.length_eq_zero.mp (by omega : (List.filter
        (fun x => x.symbol == sym && x.position_type == pt) ps).length = 0)
      exact get_position_none_of_no_match
        (fun x hx => by simpa using List.filter_eq_nil_iff.mp hnil x hx)
    · unfold close_position
      rw [if_neg hm]
      unfold get_position
      rw [if_neg hm]
      rw [@List.filter_cons_of_neg Position
        (fun x => x.symbol == sym && x.position_type == pt) p ps hm] at hc
      exact ih hc

/-! ## C1 -/

/-- C1: a buy on a symbol with an existing long position of quantity Q and
cost basis C yields the stored position with quantity Q + q and cost basis
(Q * C + q * p) / (Q + q); a buy on a symbol with no long position creates
a position with cost_basis = p and quantity = q. -/
theorem execute_buy_average_cost (s : PortfolioState) (symbol : String)
    (q p : ℚ) (d : PyDateTime) (info : StockInfo) (now : PyDateTime)
    (hsym : symbol ≠ "") (hq : 0 < q) (hp : 0 < p) :
    (∀ pos, get_position s.positions symbol "long" = some pos →
      ∃ t pos', execute_buy s symbol q p d info now =
          (.ok (pos', t),
           ⟨update_position s.positions pos', s.transactions ++ [t]⟩) ∧
        pos'.quantity = pos.quantity + q ∧
        pos'.cost_basis = (pos.quantity * pos.cost_basis + q * p) / (pos.quantity + q) ∧
        get_position (update_position s.positions pos') symbol "long" = some pos') ∧
    (get_position s.positions symbol "long" = none →
      0 < info.price → -1 ≤ info.beta → info.beta ≤ 5 →
      ∃ t pos, execute_buy s symbol q p d info now =
          (.ok (pos, t), ⟨s.positions ++ [pos], s.transactions ++ [t]⟩) ∧
        pos.cost_basis = p ∧ pos.quantity = q) := by
  constructor
  · intro pos hpos
    refine ⟨⟨str_upper symbol, "buy", q, p, d, none⟩,
      { pos with
          quantity := pos.quantity + q,
          cost_basis := (pos.quantity * pos.cost_basis + q * p) / (pos.quantity + q),
          current_price := info.price,
          last_updated := now }, ?_, rfl, rfl, ?_⟩
    · unfold execute_buy
      rw [mkTransaction_ok symbol "buy" q p d none hsym (by decide) hq hp]
      simp only [hpos]
    · exact get_position_update_position _ hpos rfl rfl
  · intro hnone hip hb1 hb2
    refine ⟨⟨str_upper symbol, "buy", q, p, d, none⟩,
      ⟨str_upper symbol, q, p, info.price, "long", info.sector, info.industry,
        info.beta, d, now⟩, ?_, rfl, rfl⟩
    unfold execute_buy
    rw [mkTransaction_ok symbol "buy" q p d none hsym (by decide) hq hp]
    simp only [hnone]
    rw [mkPosition_ok symbol q p info.price "long" info.sector info.industry
      info.beta d now hsym hq hp hip (by decide) hb1 hb2]

/-- Witness for C1: buying 50 at 170 into the 100-at-150 AAPL position
gives quantity 150 and cost basis (100 * 150 + 50 * 170) / 150 = 470/3;
buying 10 at 20 on a fresh symbol gives cost basis 20 and quantity 10. -/
theorem execute_buy_average_cost_witness :
    (∃ t pos', execute_buy s0 "AAPL" 50 170 dt0 info0 dt1 =
        (.ok (pos', t),
         ⟨update_position s0.positions pos', s0.transactions ++ [t]⟩) ∧
      pos'.quantity = posAAPL.quantity + 50 ∧
      pos'.cost_basis = (posAAPL.quantity * posAAPL.cost_basis + 50 * 170) /
        (posAAPL.quantity + 50) ∧
      get_position (update_position s0.positions pos') "AAPL" "long" = some pos') ∧
    (posAAPL.quantity * posAAPL.cost_basis + 50 * 170) / (posAAPL.quantity + 50) = 470 / 3 ∧
    (∃ t pos, execute_buy ⟨[], []⟩ "MSFT" 10 20 dt0 info0 dt1 =
        (.ok (pos, t), ⟨[] ++ [pos], [] ++ [t]⟩) ∧
      pos.cost_basis = 20 ∧ pos.quantity = 10) :=
  ⟨(execute_buy_average_cost s0 "AAPL" 50 170 dt0 info0 dt1
      (by decide) (by decide) (by decide)).1 posAAPL (by decide),
   by
     simp only [posAAPL]
     norm_num,
   (execute_buy_average_cost ⟨[], []⟩ "MSFT" 10 20 dt0 info0 dt1
      (by decide) (by decide) (by decide)).2 (by decide) (by decide)
      (by decide) (by decide)⟩

/-! ## C2 -/

/-- C2: a sell of q at p against a long position with cost basis C and
quantity Q, q ≤ Q, records realized gain (p - C) * q on the sell
transaction; when q = Q the position is removed from the positions list,
when q < Q the stored position keeps cost basis C and has quantity Q - q. -/
theorem execute_sell_realized_gain (s : PortfolioState) (symbol : String)
    (q p : ℚ) (d : PyDateTime) (pos : Position)
    (hpos : get_position s.positions symbol "long" = some pos)
    (hsym : symbol ≠ "") (hq : 0 < q) (hp : 0 < p)
    (huniq : (s.positions.filter
      (fun x => x.symbol == symbol && x.position_type == "long")).length ≤ 1) :
    (q = pos.quantity →
      execute_sell s symbol q p d =
        (.ok (none, ⟨str_upper symbol, "sell", q, p, d, some ((p - pos.cost_basis) * q)⟩),
         ⟨close_position s.positions symbol "long",
          s.transactions ++ [⟨str_upper symbol, "sell", q, p, d, some ((p - pos.cost_basis) * q)⟩]⟩) ∧
      get_position (close_position s.positions symbol "long") symbol "long" = none) ∧
    (q < pos.quantity →
      ∃ pos', execute_sell s symbol q p d =
          (.ok (some pos', ⟨str_upper symbol, "sell", q, p, d, some ((p - pos.cost_basis) * q)⟩),
           ⟨update_position s.positions pos',
            s.transactions ++ [⟨str_upper symbol, "sell", q, p, d, some ((p - pos.cost_basis) * q)⟩]⟩) ∧
        pos'.quantity = pos.quantity - q ∧
        pos'.cost_basis = pos.cost_basis ∧
        get_position (update_position s.positions pos') symbol "long" = some pos') := by
  constructor
  · intro heq
    subst heq
    refine ⟨?_, get_position_close_position huniq⟩
    unfold execute_sell
    simp only [hpos, lt_self_iff_false, if_false,
      mkTransaction_ok symbol "sell" pos.quantity p d
        (some ((p - pos.cost_basis) * pos.quantity)) hsym (by decide) hq hp,
      beq_self_eq_true, if_true]
  · intro hlt
    have hbeq : (pos.quantity == q) = false :=
      beq_eq_false_iff_ne.mpr (ne_of_gt hlt)
    refine ⟨{ pos with quantity := pos.quantity - q }, ?_, rfl, rfl, ?_⟩
    · unfold execute_sell
      simp only [hpos, if_neg (not_lt.mpr (le_of_lt hlt)),
        mkTransaction_ok symbol "sell" q p d (some ((p - pos.cost_basis) * q))
          hsym (by decide) hq hp,
        hbeq, Bool.false_eq_true, if_false]
    · exact get_position_update_position _ hpos rfl rfl

/-- Witness for C2: selling 50 at 180 out of the 150-share AAPL position
with cost basis 470/3 leaves 100 shares at cost basis 470/3 and records
realized gain (180 - 470/3) * 50 = 3500/3; selling all 150 removes the
position. -/
theorem execute_sell_realized_gain_witness :
    (∃ pos', execute_sell s2 "AAPL" 50 180 dt0 =
        (.ok (some pos',
          ⟨str_upper "AAPL", "sell", 50, 180, dt0, some ((180 - posAAPL2.cost_basis) * 50)⟩),
         ⟨update_position s2.positions pos',
          s2.transactions ++ [⟨str_upper "AAPL", "sell", 50, 180, dt0,
            some ((180 - posAAPL2.cost_basis) * 50)⟩]⟩) ∧
      pos'.quantity = posAAPL2.quantity - 50 ∧
      pos'.cost_basis = posAAPL2.cost_basis ∧
      get_position (update_position s2.positions pos') "AAPL" "long" = some pos') ∧
    (180 - posAAPL2.cost_basis) * 50 = 3500 / 3 ∧
    (execute_sell s2 "AAPL" 150 180 dt0 =
      (.ok (none, ⟨str_upper "AAPL", "sell", 150, 180, dt0,
        some ((180 - posAAPL2.cost_basis) * 150)⟩),
       ⟨close_position s2.positions "AAPL" "long",
        s2.transactions ++ [⟨str_upper "AAPL", "sell", 150, 180, dt0,
          some ((180 - posAAPL2.cost_basis) * 150)⟩]⟩) ∧
     get_position (close_position s2.positions "AAPL" "long") "AAPL" "long" = none) :=
  ⟨(execute_sell_realized_gain s2 "AAPL" 50 180 dt0 posAAPL2 rfl
      (by decide) (by decide) (by decide) (by rfl)).2 (by decide),
   by
     simp only [posAAPL2]
     norm_num,
   (execute_sell_realized_gain s2 "AAPL" 150 180 dt0 posAAPL2 rfl
      (by decide) (by decide) (by decide) (by rfl)).1 (by rfl)⟩

/-! ## C3 -/

/-- C3: a cover of q at p against a short position with cost basis C and
quantity Q, q ≤ Q, records realized gain (C - p) * q on the cover
transaction (sign inverted relative to a sell); the closing and partial
rules mirror the sell case. -/
theorem execute_cover_realized_gain (s : PortfolioState) (symbol : String)
    (q p : ℚ) (d : PyDateTime) (pos : Position)
    (hpos : get_position s.positions symbol "short" = some pos)
    (hsym : symbol ≠ "") (hq : 0 < q) (hp : 0 < p)
    (huniq : (s.positions.filter
      (fun x => x.symbol == symbol && x.position_type == "short")).length ≤ 1) :
    (q = pos.quantity →
      execute_cover s symbol q p d =
        (.ok (none, ⟨str_upper symbol, "cover", q, p, d, some ((pos.cost_basis - p) * q)⟩),
         ⟨close_position s.positions symbol "short",
          s.transactions ++ [⟨str_upper symbol, "cover", q, p, d, some ((pos.cost_basis - p) * q)⟩]⟩) ∧
      get_position (close_position s.positions symbol "short") symbol "short" = none) ∧
    (q < pos.quantity →
      ∃ pos', execute_cover s symbol q p d =
          (.ok (some pos', ⟨str_upper symbol, "cover", q, p, d, some ((pos.cost_basis - p) * q)⟩),
           ⟨update_position s.positions pos',
            s.transactions ++ [⟨str_upper symbol, "cover", q, p, d, some ((pos.cost_basis - p) * q)⟩]⟩) ∧
        pos'.quantity = pos.quantity - q ∧
        pos'.cost_basis = pos.cost_basis ∧
        get_position (update_position s.positions pos') symbol "short" = some pos') := by
  constructor
  · intro heq
    subst heq
    refine ⟨?_, get_position_close_position huniq⟩
    unfold execute_cover
    simp only [hpos, lt_self_iff_false, if_false,
      mkTransaction_ok symbol "cover" pos.quantity p d
        (some ((pos.cost_basis - p) * pos.quantity)) hsym (by decide) hq hp,
      beq_self_eq_true, if_true]
  · intro hlt
    have hbeq : (pos.quantity == q) = false :=
      beq_eq_false_iff_ne.mpr (ne_of_gt hlt)
    refine ⟨{ pos with quantity := pos.quantity - q }, ?_, rfl, rfl, ?_⟩
    · unfold execute_cover
      simp only [hpos, if_neg (not_lt.mpr (le_of_lt hlt)),
        mkTransaction_ok symbol "cover" q p d (some ((pos.cost_basis - p) * q))
          hsym (by decide) hq hp,
        hbeq, Bool.false_eq_true, if_false]
    · exact get_position_update_position _ hpos rfl rfl

/-- Witness for C3: shorting 30 shares of Y at 40 from an empty portfolio
creates the short position `posY`; covering all 30 at 35 closes it and
records realized gain (40 - 35) * 30 = 150. -/
theorem execute_cover_realized_gain_witness :
    sY.positions = [posY] ∧
    (execute_cover sY "Y" 30 35 dt0 =
      (.ok (none, ⟨str_upper "Y", "cover", 30, 35, dt0,
        some ((posY.cost_basis - 35) * 30)⟩),
       ⟨close_position sY.positions "Y" "short",
        sY.transactions ++ [⟨str_upper "Y", "cover", 30, 35, dt0,
          some ((posY.cost_basis - 35) * 30)⟩]⟩) ∧
     get_position (close_position sY.positions "Y" "short") "Y" "short" = none) ∧
    (posY.cost_basis - 35) * 30 = 150 :=
  ⟨rfl,
   (execute_cover_realized_gain sY "Y" 30 35 dt0 posY rfl
      (by decide) (by decide) (by decide) (by rfl)).1 (by rfl),
   by
     simp only [posY]
     norm_num⟩

/-! ## C4 -/

/-- C4: a sell whose quantity exceeds the held quantity of the matching
long position, or for which no long position exists, returns the
insufficient-shares error and the state exactly as it was; independently,
the same holds for a cover against the short position. Each direction
needs only its own insufficiency: whatever the other direction holds in
the same symbol is irrelevant. -/
theorem insufficient_shares_no_mutation (s : PortfolioState) (symbol : String)
    (q p : ℚ) (d : PyDateTime) :
    ((∀ pos, get_position s.positions symbol "long" = some pos → pos.quantity < q) →
      execute_sell s symbol q p d =
        (.error ("Insufficient shares to sell: " ++ symbol), s)) ∧
    ((∀ pos, get_position s.positions symbol "short" = some pos → pos.quantity < q) →
      execute_cover s symbol q p d =
        (.error ("Insufficient shares to cover: " ++ symbol), s)) := by
  constructor
  · intro hsell
    unfold execute_sell
    cases hg : get_position s.positions symbol "long" with
    | none => rfl
    | some pos => simp only [hsell pos hg, if_true]
  · intro hcover
    unfold execute_cover
    cases hg : get_position s.positions symbol "short" with
    | none => rfl
    | some pos => simp only [hcover pos hg, if_true]

/-- Witness for C4: selling 200 AAPL against a 100-share long position
fails and leaves the state untouched even while a 500-share short
position in the same symbol exists; covering 200 AAPL with no short
position at all also fails without mutation. -/
theorem insufficient_shares_no_mutation_witness :
    execute_sell sMixed "AAPL" 200 10 dt0 =
      (.error ("Insufficient shares to sell: " ++ "AAPL"), sMixed) ∧
    execute_cover s0 "AAPL" 200 10 dt0 =
      (.error ("Insufficient shares to cover: " ++ "AAPL"), s0) :=
  ⟨(insufficient_shares_no_mutation sMixed "AAPL" 200 10 dt0).1
    (fun pos h => by
      have h0 : get_position sMixed.positions "AAPL" "long" = some posAAPL := by
        decide
      rw [h0] at h
      cases h
      decide),
   (insufficient_shares_no_mutation s0 "AAPL" 200 10 dt0).2
    (fun pos h => by
      have h0 : get_position s0.positions "AAPL" "short" = (none : Option Position) := by
        decide
      rw [h0] at h
      exact Option.noConfusion h)⟩

/-! ## C5 -/

/-- Every pair of a list element and its image under the map applied by
the refresh loop. -/
theorem mem_zip_map_self {α β : Type} (f : α → β) (l : List α) (pp : α × β)
    (h : pp ∈ l.zip (l.map f)) : pp.2 = f pp.1 := by
  induction l with
  | nil => simp at h
  | cons a l ih =>
    rw [List.map_cons, List.zip_cons_cons] at h
    rcases List.mem_cons.mp h with h1 | h2
    · subst h1
      rfl
    · exact ih h2

/-- A filter and its negation partition a list's length. -/
theorem length_filter_add_length_filter_not {α : Type} (f : α → Bool) (l : List α) :
    (l.filter f).length + (l.filter (fun x => !(f x))).length = l.length := by
  induction l with
  | nil => rfl
  | cons a l ih =>
    cases hf : f a <;> simp [List.filter_cons, hf] <;> omega

/-- C5: a bulk price refresh updates current_price and last_updated on
exactly the positions whose symbols appear in the batch-quote result,
leaves positions with absent symbols untouched, never alters quantity or
cost basis, and the reported updated count plus the untouched count is
the requested position count. -/
theorem update_portfolio_partial_refresh (positions : List Position)
    (quotes : List (String × ℚ)) (now : PyDateTime) :
    (update_portfolio_positions positions quotes now).length = positions.length ∧
    (∀ pp ∈ positions.zip (update_portfolio_positions positions quotes now),
      (∀ pr, dict_get quotes pp.1.symbol = some pr →
        pp.2 = { pp.1 with current_price := pr, last_updated := now }) ∧
      (dict_get quotes pp.1.symbol = none → pp.2 = pp.1) ∧
      pp.2.quantity = pp.1.quantity ∧
      pp.2.cost_basis = pp.1.cost_basis) ∧
    updated_count positions quotes +
      (positions.filter (fun p => (dict_get quotes p.symbol).isNone)).length =
      positions.length := by
  refine ⟨by simp [update_portfolio_positions], ?_, ?_⟩
  · intro pp hpp
    unfold update_portfolio_positions at hpp
    have hval := mem_zip_map_self
      (fun p => match dict_get quotes p.symbol with
        | some price => { p with current_price := price, last_updated := now }
        | none => p) positions pp hpp
    constructor
    · intro pr hpr
      rw [hval]
      simp only [hpr]
    constructor
    · intro hnone
      rw [hval]
      simp only [hnone]
    · cases hd : dict_get quotes pp.1.symbol <;> rw [hval] <;> simp [hd]
  · have hpart := length_filter_add_length_filter_not
      (fun p => (dict_get quotes p.symbol).isSome) positions
    unfold updated_count
    simpa [Option.not_isSome] using hpart

/-- Witness for C5: refreshing AAPL and Y when the provider quotes only
AAPL updates exactly the AAPL position, leaves Y untouched, and reports
an updated count of 1 out of 2. -/
theorem update_portfolio_partial_refresh_witness :
    update_portfolio_positions [posAAPL, posY] quotesA dt1 =
      [{ posAAPL with current_price := 160, last_updated := dt1 }, posY] ∧
    updated_count [posAAPL, posY] quotesA = 1 ∧
    ((update_portfolio_positions [posAAPL, posY] quotesA dt1).length =
      ([posAAPL, posY] : List Position).length ∧
    (∀ pp ∈ ([posAAPL, posY] : List Position).zip
        (update_portfolio_positions [posAAPL, posY] quotesA dt1),
      (∀ pr, dict_get quotesA pp.1.symbol = some pr →
        pp.2 = { pp.1 with current_price := pr, last_updated := dt1 }) ∧
      (dict_get quotesA pp.1.symbol = none → pp.2 = pp.1) ∧
      pp.2.quantity = pp.1.quantity ∧
      pp.2.cost_basis = pp.1.cost_basis) ∧
    updated_count [posAAPL, posY] quotesA +
      (([posAAPL, posY] : List Position).filter
        (fun p => (dict_get quotesA p.symbol).isNone)).length =
      ([posAAPL, posY] : List Position).length) :=
  ⟨by decide, by decide,
   update_portfolio_partial_refresh [posAAPL, posY] quotesA dt1⟩

/-! ## C6 -/

/-- Lookup in an appended dict when the key is present on the left. -/
theorem date_get_append_left {m : List (Nat × ℚ)} {k : Nat} {v : ℚ}
    (h : date_get m k = some v) (m' : List (Nat × ℚ)) :
    date_get (m ++ m') k = some v := by
  induction m with
  | nil => simp [date_get] at h
  | cons ab m ih =>
    obtain ⟨a, b⟩ := ab
    simp only [List.cons_append]
    unfold date_get at h ⊢
    by_cases hak : (a == k) = true
    · rw [if_pos hak] at h
      rw [if_pos hak]
      exact h
    · rw [if_neg hak] at h
      rw [if_neg hak]
      exact ih h

/-- Lookup in an appended dict when the key is absent on the left. -/
theorem date_get_append_none {m : List (Nat × ℚ)} {k : Nat}
    (h : date_get m k = none) (m' : List (Nat × ℚ)) :
    date_get (m ++ m') k = date_get m' k := by
  induction m with
  | nil => rfl
  | cons ab m ih =>
    obtain ⟨a, b⟩ := ab
    simp only [List.cons_append]
    unfold date_get at h
    by_cases hak : (a == k) = true
    · rw [if_pos hak] at h
      exact absurd h (by simp)
    · rw [if_neg hak] at h
      show (if (a == k) = true then some b else date_get (m ++ m') k) = date_get m' k
      rw [if_neg hak]
      exact ih h

/-- Lookup after `date_add`: the entry at the target key gains `g`, every
other key is unchanged. -/
theorem date_get_date_add (m : List (Nat × ℚ)) (d : Nat) (g : ℚ) (k : Nat) :
    date_get (date_add m d g) k =
      if k = d then Option.map (fun v => v + g) (date_get m d)
      else date_get m k := by
  induction m with
  | nil =>
    by_cases hkd : k = d
    · rw [if_pos hkd]
      rfl
    · rw [if_neg hkd]
      rfl
  | cons ab m ih =>
    obtain ⟨a, b⟩ := ab
    unfold date_add at ih ⊢
    simp only [List.map_cons]
    by_cases had : a = d
    · subst had
      rw [if_pos (by simp)]
      by_cases hkd : k = a
      · subst hkd
        rw [if_pos rfl]
        unfold date_get
        rw [if_pos (by simp), if_pos (by simp)]
        rfl
      · rw [if_neg hkd]
        unfold date_get
        rw [if_neg (by simpa using fun h : a = k => hkd h.symm),
          if_neg (by simpa using fun h : a = k => hkd h.symm)]
        rw [ih, if_neg hkd]
    · rw [if_neg (by simpa using had)]
      by_cases hkd : k = d
      · rw [if_pos hkd]
        unfold date_get
        rw [if_neg (by simpa using fun h : a = k => had (h.trans hkd)),
          if_neg (by simpa using had)]
        rw [ih, if_pos hkd]
      · rw [if_neg hkd]
        by_cases hak : a = k
        · subst hak
          unfold date_get
          rw [if_pos (by simp), if_pos (by simp)]
        · unfold date_get
          rw [if_neg (by simpa using hak), if_neg (by simpa using hak)]
          rw [ih, if_neg hkd]


/-- One loop iteration of the daily P&L computation, seen through lookup:
the transaction's own calendar date gets its (0-defaulted) realized gain
added to the (0-defaulted) previous entry; every other date is unchanged. -/
theorem daily_pnl_step_get (m : List (Nat × ℚ)) (t : Transaction) (k : Nat) :
    date_get (daily_pnl_step m t) k =
      if k = t.date.day then
        some ((date_get m k).getD 0 + t.realized_gain.getD 0)
      else date_get m k := by
  have hm1 : ∀ k', date_get
      (if (date_get m t.date.day).isSome then m else m ++ [(t.date.day, 0)]) k' =
      if k' = t.date.day then some ((date_get m k').getD 0) else date_get m k' := by
    intro k'
    cases hd : date_get m t.date.day with
    | some v =>
      rw [if_pos (by rfl)]
      by_cases hk : k' = t.date.day
      · rw [if_pos hk, hk, hd]
        rfl
      · rw [if_neg hk]
    | none =>
      rw [if_neg (by simp)]
      by_cases hk : k' = t.date.day
      · subst hk
        rw [date_get_append_none hd, if_pos rfl, hd]
        unfold date_get
        rw [if_pos (by simp)]
        rfl
      · rw [if_neg hk]
        cases hg : date_get m k' with
        | some v => rw [date_get_append_left hg]
        | none =>
          rw [date_get_append_none hg]
          unfold date_get
          rw [if_neg (by simpa using fun h : t.date.day = k' => hk h.symm)]
          rfl
  cases hr : t.realized_gain with
  | none =>
    simp only [daily_pnl_step, hr]
    rw [hm1 k]
    by_cases hk : k = t.date.day
    · rw [if_pos hk, if_pos hk]
      simp
    · rw [if_neg hk, if_neg hk]
  | some g =>
    by_cases hg0 : g ≠ 0
    · simp only [daily_pnl_step, hr]
      rw [if_pos hg0, date_get_date_add, hm1 k, hm1 t.date.day, if_pos rfl]
      by_cases hk : k = t.date.day
      · rw [if_pos hk, if_pos hk, hk]
        rfl
      · rw [if_neg hk, if_neg hk, if_neg hk]
    · push_neg at hg0
      subst hg0
      simp only [daily_pnl_step, hr]
      rw [if_neg (by simp), hm1 k]
      by_cases hk : k = t.date.day
      · rw [if_pos hk, if_pos hk]
        simp
      · rw [if_neg hk, if_neg hk]

/-- A date with no transactions has zero summed gains. -/
theorem pnl_gains_eq_zero_of_not_mem {k : Nat} {ts : List Transaction}
    (h : k ∉ ts.map (fun t => t.date.day)) : pnl_gains k ts = 0 := by
  unfold pnl_gains
  have hnil : ts.filter (fun t => t.date.day == k) = [] := by
    rw [List.filter_eq_nil_iff]
    intro t ht
    simp only [beq_iff_eq]
    intro hc
    exact h (List.mem_map.mpr ⟨t, ht, hc⟩)
  rw [hnil]
  rfl

/-- Summed gains over a cons. -/
theorem pnl_gains_cons (k : Nat) (t : Transaction) (ts : List Transaction) :
    pnl_gains k (t :: ts) =
      (if t.date.day = k then t.realized_gain.getD 0 else 0) + pnl_gains k ts := by
  unfold pnl_gains
  by_cases h : t.date.day = k
  · rw [@List.filter_cons_of_pos Transaction (fun x => x.date.day == k) t ts
      (by simpa using h)]
    rw [List.map_cons, List.sum_cons, if_pos h]
  · rw [@List.filter_cons_of_neg Transaction (fun x => x.date.day == k) t ts
      (by simpa using h)]
    rw [if_neg h, zero_add]

/-- The daily P&L fold, seen through lookup from any starting dict. -/
theorem calculate_daily_pnl_foldl (ts : List Transaction) (m : List (Nat × ℚ))
    (k : Nat) :
    date_get (ts.foldl daily_pnl_step m) k =
      if k ∈ ts.map (fun t => t.date.day) then
        some ((date_get m k).getD 0 + pnl_gains k ts)
      else date_get m k := by
  induction ts generalizing m with
  | nil =>
    rw [if_neg (by simp)]
    rfl
  | cons t ts ih =>
    rw [List.foldl_cons, ih (daily_pnl_step m t), daily_pnl_step_get]
    by_cases hk : k = t.date.day
    · rw [if_pos hk, List.map_cons]
      have hmem_cons : k ∈ t.date.day :: ts.map (fun t => t.date.day) := by
        rw [hk]
        exact List.mem_cons_self _ _
      rw [if_pos hmem_cons, pnl_gains_cons, if_pos hk.symm]
      by_cases hmem : k ∈ ts.map (fun t => t.date.day)
      · rw [if_pos hmem]
        simp [add_assoc]
      · rw [if_neg hmem, pnl_gains_eq_zero_of_not_mem hmem]
        simp
    · rw [if_neg hk, List.map_cons]
      have hmem_iff : (k ∈ t.date.day :: ts.map (fun t => t.date.day)) ↔
          k ∈ ts.map (fun t => t.date.day) := by
        constructor
        · intro h
          rcases List.mem_cons.mp h with h1 | h2
          · exact absurd h1 hk
          · exact h2
        · exact fun h => List.mem_cons_of_mem _ h
      rw [pnl_gains_cons, if_neg (fun h : t.date.day = k => hk h.symm), zero_add]
      by_cases hmem : k ∈ ts.map (fun t => t.date.day)
      · rw [if_pos hmem, if_pos (hmem_iff.mpr hmem)]
      · rw [if_neg hmem, if_neg (fun h => hmem (hmem_iff.mp h))]

/-- C6 (amended): the daily P&L map carries a key for exactly the calendar
dates on which at least one transaction of any type occurred, and maps each
such date to the sum of the (0-defaulted) realized gains of that date's
transactions; a date whose transactions carry no realized gain is present
with value 0, not absent. -/
theorem calculate_daily_pnl_keys_and_sums (ts : List Transaction) (d : Nat) :
    date_get (calculate_daily_pnl ts) d =
      if d ∈ ts.map (fun t => t.date.day) then some (pnl_gains d ts) else none := by
  unfold calculate_daily_pnl
  rw [calculate_daily_pnl_foldl]
  by_cases h : d ∈ ts.map (fun t => t.date.day)
  · rw [if_pos h, if_pos h]
    simp [date_get]
  · rw [if_neg h, if_neg h]
    rfl

/-- C6 counterexample: a single buy transaction (realized_gain = None) on
calendar day 5 makes day 5 a key of the daily P&L map with value 0,
though no transaction with a realized gain occurred on that day — the
claim's only-if key condition fails on the code. -/
theorem calculate_daily_pnl_zero_fill_counterexample :
    txBuy.realized_gain = none ∧
    calculate_daily_pnl [txBuy] = [(5, 0)] ∧
    date_get (calculate_daily_pnl [txBuy]) 5 = some 0 :=
  ⟨rfl, rfl, rfl⟩

/-! ## C7 -/

/-- C7: with total_short_value = 0 the serialized long/short ratio is the
literal string "N/A"; with total_short_value > 0 the stored metadata value
is exactly total_long_value / total_short_value and it serializes as that
quotient rounded at the presentation boundary. -/
theorem long_short_ratio_na_sentinel (L S : ℚ) :
    (S = 0 → serialize_long_short (long_short_ratio_value L S) = .str "N/A") ∧
    (0 < S → long_short_ratio_value L S = some (L / S) ∧
      serialize_long_short (long_short_ratio_value L S) =
        .num (python_round2 (L / S))) := by
  constructor
  · intro h0
    subst h0
    unfold long_short_ratio_value
    rw [if_neg (lt_irrefl 0)]
    rfl
  · intro hS
    unfold long_short_ratio_value
    rw [if_pos hS]
    exact ⟨rfl, rfl⟩

/-- Witness for C7: long 3 against short 0 serializes as "N/A"; long 3
against short 2 stores 3/2 and serializes as its 2-place rounding. -/
theorem long_short_ratio_na_sentinel_witness :
    serialize_long_short (long_short_ratio_value 3 0) = .str "N/A" ∧
    long_short_ratio_value 3 2 = some (3 / 2) ∧
    serialize_long_short (long_short_ratio_value 3 2) =
      .num (python_round2 (3 / 2)) :=
  ⟨(long_short_ratio_na_sentinel 3 0).1 rfl,
   ((long_short_ratio_na_sentinel 3 2).2 (by norm_num)).1,
   ((long_short_ratio_na_sentinel 3 2).2 (by norm_num)).2⟩

/-! ## C9 -/

/-- C9: every successfully constructed Position and Transaction stores its
symbol upper-cased: the stored symbol equals the input symbol mapped
through upper. -/
theorem constructed_symbols_uppercase :
    (∀ (symbol : String) (quantity cost_basis current_price : ℚ)
        (position_type sector industry : String) (beta : ℚ)
        (entry_date now : PyDateTime) (pos : Position),
      mkPosition symbol quantity cost_basis current_price position_type
        sector industry beta entry_date now = .ok pos →
      pos.symbol = str_upper symbol) ∧
    (∀ (symbol transaction_type : String) (quantity price : ℚ)
        (date : PyDateTime) (realized_gain : Option ℚ) (t : Transaction),
      mkTransaction symbol transaction_type quantity price date realized_gain =
        .ok t →
      t.symbol = str_upper symbol) := by
  constructor
  · intro symbol q cb cp pt sec ind b ed now pos h
    unfold mkPosition at h
    split_ifs at h
    all_goals first
      | exact Except.noConfusion h
      | (injection h with h'
         rw [← h'])
  · intro symbol tt q p d g t h
    unfold mkTransaction at h
    split_ifs at h
    all_goals first
      | exact Except.noConfusion h
      | (injection h with h'
         rw [← h'])

/-- Witness for C9: constructing a Position from "aapl" and a Transaction
from "msft" succeeds and stores "AAPL" and "MSFT". -/
theorem constructed_symbols_uppercase_witness :
    mkPosition "aapl" 1 2 3 "long" "Technology" "Software" 1 dt0 dt1 =
      .ok posLower ∧
    posLower.symbol = str_upper "aapl" ∧
    str_upper "aapl" = "AAPL" ∧
    mkTransaction "msft" "buy" 1 2 dt0 none = .ok txLower ∧
    txLower.symbol = str_upper "msft" ∧
    str_upper "msft" = "MSFT" :=
  ⟨rfl,
   constructed_symbols_uppercase.1 "aapl" 1 2 3 "long" "Technology" "Software"
     1 dt0 dt1 posLower rfl,
   rfl,
   rfl,
   constructed_symbols_uppercase.2 "msft" "buy" 1 2 dt0 none txLower rfl,
   rfl⟩

/-! ## C10 -/

/-- Lookup in an appended string-keyed dict when the key is present on
the left. -/
theorem dict_get_append_left {β : Type} {m : List (String × β)} {k : String}
    {v : β} (h : dict_get m k = some v) (m' : List (String × β)) :
    dict_get (m ++ m') k = some v := by
  induction m with
  | nil => simp [dict_get] at h
  | cons ab m ih =>
    obtain ⟨a, b⟩ := ab
    simp only [List.cons_append]
    unfold dict_get at h
    by_cases hak : (a == k) = true
    · rw [if_pos hak] at h
      show (if (a == k) = true then some b else dict_get (m ++ m') k) = some v
      rw [if_pos hak]
      exact h
    · rw [if_neg hak] at h
      show (if (a == k) = true then some b else dict_get (m ++ m') k) = some v
      rw [if_neg hak]
      exact ih h

/-- Lookup in an appended string-keyed dict when the key is absent on
the left. -/
theorem dict_get_append_none {β : Type} {m : List (String × β)} {k : String}
    (h : dict_get m k = none) (m' : List (String × β)) :
    dict_get (m ++ m') k = dict_get m' k := by
  induction m with
  | nil => rfl
  | cons ab m ih =>
    obtain ⟨a, b⟩ := ab
    simp only [List.cons_append]
    unfold dict_get at h
    by_cases hak : (a == k) = true
    · rw [if_pos hak] at h
      exact absurd h (by simp)
    · rw [if_neg hak] at h
      show (if (a == k) = true then some b else dict_get (m ++ m') k) = dict_get m' k
      rw [if_neg hak]
      exact ih h

/-- The mock-fill loop never overwrites a present quote. -/
theorem fill_missing_preserves (symbols : List String)
    (acc : List (String × ℚ)) {s : String} {v : ℚ}
    (h : dict_get acc s = some v) :
    dict_get (fill_missing symbols acc) s = some v := by
  induction symbols generalizing acc with
  | nil => exact h
  | cons a l ih =>
    have hstep : fill_missing (a :: l) acc =
        fill_missing l (if (dict_get acc a).isSome then acc else acc ++ [(a, 100)]) := rfl
    rw [hstep]
    by_cases ha : (dict_get acc a).isSome
    · rw [if_pos ha]
      exact ih acc h
    · rw [if_neg ha]
      exact ih _ (dict_get_append_left h _)

/-- The mock-fill loop gives every requested but missing symbol the mock
price 100. -/
theorem fill_missing_sets (symbols : List String) (acc : List (String × ℚ))
    {s : String} (hs : s ∈ symbols) (h : dict_get acc s = none) :
    dict_get (fill_missing symbols acc) s = some 100 := by
  induction symbols generalizing acc with
  | nil => simp at hs
  | cons a l ih =>
    have hstep : fill_missing (a :: l) acc =
        fill_missing l (if (dict_get acc a).isSome then acc else acc ++ [(a, 100)]) := rfl
    rw [hstep]
    by_cases hsa : s = a
    · subst hsa
      rw [if_neg (by rw [h]; simp)]
      refine fill_missing_preserves l _ ?_
      rw [dict_get_append_none h]
      unfold dict_get
      rw [if_pos (by simp)]
    · have hs' : s ∈ l := by
        rcases List.mem_cons.mp hs with h1 | h2
        · exact absurd h1 hsa
        · exact h2
      by_cases ha : (dict_get acc a).isSome
      · rw [if_pos ha]
        exact ih acc hs' h
      · rw [if_neg ha]
        refine ih _ hs' ?_
        rw [dict_get_append_none h]
        unfold dict_get
        rw [if_neg (by simpa using fun hh : a = s => hsa hh.symm)]
        rfl

/-- The exception branch maps every symbol to the mock price. -/
theorem dict_get_map_mock (symbols : List String) {s : String}
    (hs : s ∈ symbols) :
    dict_get (symbols.map (fun x => (x, (100 : ℚ)))) s = some 100 := by
  induction symbols with
  | nil => simp at hs
  | cons a l ih =>
    simp only [List.map_cons]
    by_cases hsa : a = s
    · unfold dict_get
      rw [if_pos (by simpa using hsa)]
    · unfold dict_get
      rw [if_neg (by simpa using hsa)]
      rcases List.mem_cons.mp hs with h1 | h2
      · exact absurd h1 (fun hh => hsa hh.symm)
      · exact ih h2

/-- C10: get_batch_quotes answers every requested symbol: on a total
provider failure every symbol carries the mock price 100.00, and any
requested symbol absent from the parsed provider response is filled with
100.00, so callers never observe an absent symbol. -/
theorem get_batch_quotes_covers (symbols : List String)
    (data : Option (List RawQuote)) (s : String) (hs : s ∈ symbols) :
    (dict_get (get_batch_quotes symbols data) s).isSome ∧
    (data = none → dict_get (get_batch_quotes symbols data) s = some 100) ∧
    (∀ raw, data = some raw → dict_get (parse_quotes raw) s = none →
      dict_get (get_batch_quotes symbols data) s = some 100) := by
  have hne : ¬ (symbols.isEmpty = true) := by
    cases symbols
    · simp at hs
    · simp
  refine ⟨?_, ?_, ?_⟩
  · unfold get_batch_quotes
    rw [if_neg hne]
    cases data with
    | none =>
      rw [dict_get_map_mock symbols hs]
      rfl
    | some raw =>
      cases hq : dict_get (parse_quotes raw) s with
      | some v =>
        rw [fill_missing_preserves symbols _ hq]
        rfl
      | none =>
        rw [fill_missing_sets symbols _ hs hq]
        rfl
  · intro hd
    subst hd
    unfold get_batch_quotes
    rw [if_neg hne]
    exact dict_get_map_mock symbols hs
  · intro raw hd hq
    subst hd
    unfold get_batch_quotes
    rw [if_neg hne]
    exact fill_missing_sets symbols _ hs hq

/-- Witness for C10: requesting A and B when the provider quotes only A
at 42 yields A at 42 and B filled with 100; a total provider failure
yields the mock price for A. -/
theorem get_batch_quotes_covers_witness :
    get_batch_quotes ["A", "B"] (some [⟨some "A", some (some 42)⟩]) =
      [("A", 42), ("B", 100)] ∧
    dict_get (parse_quotes [⟨some "A", some (some 42)⟩]) "B" = none ∧
    dict_get (get_batch_quotes ["A", "B"] (some [⟨some "A", some (some 42)⟩])) "B" =
      some 100 ∧
    dict_get (get_batch_quotes ["A", "B"] none) "A" = some 100 :=
  ⟨by decide, by decide,
   (get_batch_quotes_covers ["A", "B"] (some [⟨some "A", some (some 42)⟩]) "B"
      (by decide)).2.2 [⟨some "A", some (some 42)⟩] rfl (by decide),
   (get_batch_quotes_covers ["A", "B"] none "A" (by decide)).2.1 rfl⟩

/-! ## C8 -/

theorem sum_map_zero (L : List String) : (L.map (fun _ => (0 : ℚ))).sum = 0 := by
  induction L with
  | nil => rfl
  | cons a L ih =>
    simp only [List.map_cons, List.sum_cons, zero_add]
    exact ih

theorem sum_map_add (f g : String → ℚ) (L : List String) :
    (L.map (fun x => f x + g x)).sum = (L.map f).sum + (L.map g).sum := by
  induction L with
  | nil => simp
  | cons a L ih =>
    simp only [List.map_cons, List.sum_cons, ih]
    ring

theorem sum_map_neg {α : Type} (f : α → ℚ) (L : List α) :
    (L.map (fun x => -(f x))).sum = -((L.map f).sum) := by
  induction L with
  | nil => simp
  | cons a L ih =>
    simp only [List.map_cons, List.sum_cons, ih]
    ring

theorem sum_map_div_mul (f : String → ℚ) (T c : ℚ) (L : List String) :
    (L.map (fun x => f x / T * c)).sum = (L.map f).sum / T * c := by
  induction L with
  | nil => simp
  | cons a L ih =>
    simp only [List.map_cons, List.sum_cons, ih]
    rw [add_div, add_mul]

theorem sum_map_if_zero {a : String} {c : ℚ} {L : List String} (ha : a ∉ L) :
    (L.map (fun sec => if a = sec then c else 0)).sum = 0 := by
  induction L with
  | nil => rfl
  | cons b L ih =>
    simp only [List.map_cons, List.sum_cons]
    rw [if_neg (fun h => ha (by rw [h]; exact List.mem_cons_self b L)), zero_add]
    exact ih (fun h => ha (List.mem_cons_of_mem b h))

theorem sum_map_if_single {a : String} {c : ℚ} {L : List String}
    (hnd : L.Nodup) (ha : a ∈ L) :
    (L.map (fun sec => if a = sec then c else 0)).sum = c := by
  induction L with
  | nil => simp at ha
  | cons b L ih =>
    obtain ⟨hbL, hndL⟩ := List.nodup_cons.mp hnd
    simp only [List.map_cons, List.sum_cons]
    rcases List.mem_cons.mp ha with h1 | h2
    · rw [if_pos h1, sum_map_if_zero (h1 ▸ hbL), add_zero]
    · have hab : ¬ a = b := fun h => hbL (h ▸ h2)
      rw [if_neg hab, zero_add]
      exact ih hndL h2

/-- Summing the per-sector group sums over the distinct sectors recovers
the total sum: the groups partition the rows. -/
theorem sector_partition (v : Position → ℚ) (rows : List Position)
    (L : List String) (hnd : L.Nodup) (hcov : ∀ p ∈ rows, p.sector ∈ L) :
    (L.map (fun sec => ((rows.filter (fun q => q.sector == sec)).map v).sum)).sum
      = (rows.map v).sum := by
  induction rows with
  | nil =>
    simp only [List.filter_nil, List.map_nil, List.sum_nil]
    exact sum_map_zero L
  | cons p rows ih =>
    have hstep : (fun sec => ((List.filter (fun q => q.sector == sec) (p :: rows)).map v).sum)
        = fun sec => (if p.sector = sec then v p else 0)
            + ((rows.filter (fun q => q.sector == sec)).map v).sum := by
      funext sec
      by_cases h : p.sector = sec
      · rw [@List.filter_cons_of_pos Position (fun q => q.sector == sec) p rows
          (by simpa using h)]
        rw [List.map_cons, List.sum_cons, if_pos h]
      · rw [@List.filter_cons_of_neg Position (fun q => q.sector == sec) p rows
          (by simpa using h)]
        rw [if_neg h, zero_add]
    rw [hstep, sum_map_add, sum_map_if_single hnd (hcov p (List.mem_cons_self p rows)),
      ih (fun q hq => hcov q (List.mem_cons_of_mem p hq)), List.map_cons, List.sum_cons]

theorem sum_pos_of_all_pos {α : Type} (v : α → ℚ) (l : List α)
    (h : ∀ p ∈ l, 0 < v p) (hne : l ≠ []) : 0 < (l.map v).sum := by
  apply List.sum_pos
  · intro x hx
    obtain ⟨p, hp, hpx⟩ := List.mem_map.mp hx
    rw [← hpx]
    exact h p hp
  · simpa using hne

theorem sum_neg_of_all_neg {α : Type} (v : α → ℚ) (l : List α)
    (h : ∀ p ∈ l, v p < 0) (hne : l ≠ []) : (l.map v).sum < 0 := by
  have h2 : 0 < (l.map (fun p => -(v p))).sum := by
    apply List.sum_pos
    · intro x hx
      obtain ⟨p, hp, hpx⟩ := List.mem_map.mp hx
      rw [← hpx]
      exact neg_pos.mpr (h p hp)
    · simpa using hne
  rw [sum_map_neg] at h2
  linarith

/-- With uniformly signed position values, the absolute per-sector sums
add up to the absolute total, and that total is positive. -/
theorem abs_sector_sums (rows : List Position)
    (hsign : (∀ p ∈ rows, 0 < position_value_signed p) ∨
      (∀ p ∈ rows, position_value_signed p < 0))
    (hne : rows ≠ []) :
    ((sectors_of rows).map (fun sec => |sector_sum rows sec|)).sum
      = |(rows.map position_value_signed).sum| ∧
    0 < |(rows.map position_value_signed).sum| := by
  have hnd : (sectors_of rows).Nodup := List.nodup_dedup _
  have hcov : ∀ p ∈ rows, p.sector ∈ sectors_of rows := fun p hp =>
    List.mem_dedup.mpr (List.mem_map.mpr ⟨p, hp, rfl⟩)
  have hmemfilter : ∀ sec ∈ sectors_of rows,
      rows.filter (fun q => q.sector == sec) ≠ [] := by
    intro sec hsec hnil
    obtain ⟨p, hp, hps⟩ := List.mem_map.mp (List.mem_dedup.mp hsec)
    have hmem : p ∈ rows.filter (fun q => q.sector == sec) :=
      List.mem_filter.mpr ⟨hp, by simpa using hps⟩
    rw [hnil] at hmem
    simp at hmem
  have hpart : ((sectors_of rows).map (fun sec => sector_sum rows sec)).sum
      = (rows.map position_value_signed).sum :=
    sector_partition position_value_signed rows (sectors_of rows) hnd hcov
  rcases hsign with hpos | hneg
  · have hS : ∀ sec ∈ sectors_of rows, 0 < sector_sum rows sec := by
      intro sec hsec
      exact sum_pos_of_all_pos position_value_signed _
        (fun p hp => hpos p (List.mem_filter.mp hp).1) (hmemfilter sec hsec)
    have hT : 0 < (rows.map position_value_signed).sum :=
      sum_pos_of_all_pos position_value_signed rows hpos hne
    refine ⟨?_, by rw [abs_of_pos hT]; exact hT⟩
    rw [List.map_congr_left (fun sec hsec => abs_of_pos (hS sec hsec)), hpart,
      abs_of_pos hT]
  · have hS : ∀ sec ∈ sectors_of rows, sector_sum rows sec < 0 := by
      intro sec hsec
      exact sum_neg_of_all_neg position_value_signed _
        (fun p hp => hneg p (List.mem_filter.mp hp).1) (hmemfilter sec hsec)
    have hT : (rows.map position_value_signed).sum < 0 :=
      sum_neg_of_all_neg position_value_signed rows hneg hne
    refine ⟨?_, by rw [abs_of_neg hT]; linarith⟩
    rw [List.map_congr_left (fun sec hsec => abs_of_neg (hS sec hsec)),
      sum_map_neg, hpart, abs_of_neg hT]

/-- Mapping second projections out of key-value pairs built over a key
list. -/
theorem map_snd_pair (L : List String) (e : String → ℚ) :
    ((L.map (fun sec => (sec, e sec))).map Prod.snd) = L.map e := by
  rw [List.map_map]
  rfl

/-- C8: whenever a direction holds positions (equivalently, by the data
model's positive quantity and price, whenever its total value is
non-zero), the per-sector exposure percentages for that direction sum to
exactly 100; a direction with no positions yields the empty map. -/
theorem get_sector_exposure_sums (positions : List Position) (ptype : String)
    (hq : ∀ p ∈ positions, 0 < p.quantity)
    (hc : ∀ p ∈ positions, 0 < p.current_price) :
    (positions.filter (fun p => p.position_type == ptype) ≠ [] →
      ((get_sector_exposure positions ptype).map Prod.snd).sum = 100) ∧
    (positions.filter (fun p => p.position_type == ptype) = [] →
      get_sector_exposure positions ptype = []) := by
  constructor
  · intro hne
    have hsign : (∀ p ∈ positions.filter (fun p => p.position_type == ptype),
          0 < position_value_signed p) ∨
        (∀ p ∈ positions.filter (fun p => p.position_type == ptype),
          position_value_signed p < 0) := by
      by_cases hshort : ptype = "short"
      · right
        intro p hp
        obtain ⟨hpmem, hptb⟩ := List.mem_filter.mp hp
        have hpt : p.position_type = ptype := by simpa using hptb
        unfold position_value_signed
        rw [hpt, hshort,
          if_pos (by decide : (("short" : String) == "short") = true)]
        exact mul_neg_of_pos_of_neg (mul_pos (hq p hpmem) (hc p hpmem))
          (by norm_num)
      · left
        intro p hp
        obtain ⟨hpmem, hptb⟩ := List.mem_filter.mp hp
        have hpt : p.position_type = ptype := by simpa using hptb
        unfold position_value_signed
        rw [hpt, if_neg (by simpa using hshort), mul_one]
        exact mul_pos (hq p hpmem) (hc p hpmem)
    have habs := abs_sector_sums
      (positions.filter (fun p => p.position_type == ptype)) hsign hne
    simp only [get_sector_exposure]
    rw [if_pos habs.2, map_snd_pair, sum_map_div_mul, habs.1,
      div_self (ne_of_gt habs.2), one_mul]
  · intro hrows
    simp [get_sector_exposure, hrows]

/-- Witness for C8: a portfolio with two long positions in two sectors and
one short position has long-direction and short-direction sector
percentages summing to 100, and an unheld direction yields the empty
map. -/
theorem get_sector_exposure_sums_witness :
    ((get_sector_exposure [pTechA, pEnergyB, pShortC] "long").map Prod.snd).sum = 100 ∧
    ((get_sector_exposure [pTechA, pEnergyB, pShortC] "short").map Prod.snd).sum = 100 ∧
    get_sector_exposure [pTechA, pEnergyB, pShortC] "unknown" = [] :=
  ⟨(get_sector_exposure_sums [pTechA, pEnergyB, pShortC] "long"
      (by decide) (by decide)).1 (by decide),
   (get_sector_exposure_sums [pTechA, pEnergyB, pShortC] "short"
      (by decide) (by decide)).1 (by decide),
   (get_sector_exposure_sums [pTechA, pEnergyB, pShortC] "unknown"
      (by decide) (by decide)).2 (by decide)⟩
